import Mathlib

/-!
Verification development for the `ctar` peak–gene correlation testing engine
(`src/ctar/method.py` and `src/ctar/method-Isuru.py`).

Matrices are embedded as lists: a matrix of shape (N, B) is a `List (List ℚ)`
with N rows of length B; a column of a cell×feature matrix is a `List ℚ`.
Float arithmetic is idealised as exact arithmetic: rational inputs stay in `ℚ`
wherever the Python code computes field operations, and `np.sqrt`/`np.std` land
in `ℝ` via `Real.sqrt`.  The float32 downcast in `pearson_corr_sparse` is
ignored (downstream use is rank-based, per the spec's numeric contract).
-/

set_option maxHeartbeats 1000000

/-- Mean of a row, as computed by `np.mean(ctrl_array, axis=1)` for one row.
For the empty row this is `0/0 = 0` (numpy would warn and give NaN; the code
never calls it on empty rows). -/
def rowMean (l : List ℚ) : ℚ := l.sum / l.length

/-- Population variance of a row: the quantity under the square root in
`np.std(ctrl_array, axis=1)` (mean of squared deviations, no Bessel
correction). -/
def npVar (l : List ℚ) : ℚ := (l.map (fun x => (x - rowMean l) ^ 2)).sum / l.length

/-- Row standard deviation, `np.std(ctrl_array, axis=1)` for one row. -/
noncomputable def rowStd (l : List ℚ) : ℝ := Real.sqrt ((npVar l : ℚ) : ℝ)

/-- One row of `(ctrl_array - mean.reshape(-1,1)) / std.reshape(-1,1)`:
every entry of the row centered by the row's own mean and standard
deviation. -/
noncomputable def centerRow (l : List ℚ) : List ℝ :=
  l.map (fun x : ℚ => (((x : ℚ) : ℝ) - ((rowMean l : ℚ) : ℝ)) / rowStd l)

/-- Embedding of `np.sort` on a 1-D array. -/
noncomputable def np_sort (l : List ℝ) : List ℝ := l.insertionSort (· ≤ ·)

/-- Embedding of `np.searchsorted(a, v)` (default `side='left'`) for a sorted
array `a`: the left insertion point, i.e. the number of entries strictly below
`v`.  numpy obtains this index by binary search under the assumption that `a`
is sorted; on a sorted array that binary search returns exactly this count. -/
noncomputable def np_searchsorted (l : List ℝ) (v : ℝ) : ℕ :=
  l.countP (fun x => decide (x < v))

namespace method

/-- Embedding of `center_ctrls` from `src/ctar/method.py` (lines 104–137):
centers the (N,B) control array and the length-N main array by the control
rows' own mean and std, then takes absolute values of the flattened controls
and of the main array (`np.abs` is applied AFTER centering in this file). -/
noncomputable def center_ctrls (ctrl_array : List (List ℚ)) (main_array : List ℚ) :
    List ℝ × List ℝ :=
  (((ctrl_array.map centerRow).flatten).map (fun x => |x|),
   ((main_array.zip ctrl_array).map
      (fun p => (((p.1 : ℚ) : ℝ) - ((rowMean p.2 : ℚ) : ℝ)) / rowStd p.2)).map (fun x => |x|))

/-- Embedding of `mc_pval` from `src/ctar/method.py` (lines 140–170): center,
pool and sort all N·B centered null values, then for each feature the
indicator is `len(pool) - np.searchsorted(sorted_pool, centered_main)` and the
p-value is `(1 + indicator) / (1 + n*b)`. -/
noncomputable def mc_pval (del_cctrl_full : List (List ℚ)) (del_c : List ℚ) : List ℚ :=
  ((center_ctrls del_cctrl_full del_c).2).map (fun v =>
    (1 + (((center_ctrls del_cctrl_full del_c).1.length -
        np_searchsorted (np_sort (center_ctrls del_cctrl_full del_c).1) v : ℕ) : ℚ)) /
      (1 + ((del_cctrl_full.length * (del_cctrl_full.headD []).length : ℕ) : ℚ)))

end method

namespace methodIsuru

/-- Embedding of `center_ctrls` from `src/ctar/method-Isuru.py` (lines
139–172): identical centering, but NO absolute value is taken on the
returned arrays. -/
noncomputable def center_ctrls (ctrl_array : List (List ℚ)) (main_array : List ℚ) :
    List ℝ × List ℝ :=
  ((ctrl_array.map centerRow).flatten,
   (main_array.zip ctrl_array).map
      (fun p => (((p.1 : ℚ) : ℝ) - ((rowMean p.2 : ℚ) : ℝ)) / rowStd p.2))

/-- Embedding of `mc_pval` from `src/ctar/method-Isuru.py` (lines 175–205):
same pipeline as `method.mc_pval` except that absolute values are taken
BEFORE centering — it calls `center_ctrls(np.abs(del_cctrl_full), np.abs(del_c))`. -/
noncomputable def mc_pval (del_cctrl_full : List (List ℚ)) (del_c : List ℚ) : List ℚ :=
  ((center_ctrls (del_cctrl_full.map (fun r => r.map (fun x => |x|)))
      (del_c.map (fun x => |x|))).2).map (fun v =>
    (1 + (((center_ctrls (del_cctrl_full.map (fun r => r.map (fun x => |x|)))
        (del_c.map (fun x => |x|))).1.length -
        np_searchsorted (np_sort (center_ctrls (del_cctrl_full.map (fun r => r.map (fun x => |x|)))
          (del_c.map (fun x => |x|))).1) v : ℕ) : ℚ)) /
      (1 + ((del_cctrl_full.length * (del_cctrl_full.headD []).length : ℕ) : ℚ)))

end methodIsuru

/-! ### Sparse correlation engine (`pearson_corr_sparse`, both files, identical code) -/

/-- The near-zero-variance threshold `1e-6` from
`no_var = (v_X_var <= 1e-6) | (v_Y_var <= 1e-6)`. -/
def noVarThreshold : ℚ := 1 / 1000000

/-- The variance floor `1e-8` from `v_var.clip(1e-8)`. -/
def varFloor : ℚ := 1 / 100000000

/-- Column mean, `scdrs.pp._get_mean_var` mean part.  Modelled from the spec:
`scdrs.pp._get_mean_var` is an external-library call; §4.1 of the spec fixes
its contract as the per-column mean and the sparse identity
`var = E[x²] − E[x]²`. -/
def colMean (x : List ℚ) : ℚ := x.sum / x.length

/-- Column variance, `scdrs.pp._get_mean_var` variance part.  Modelled from
the spec: the sparse identity `var = E[x²] − E[x]²` (§4.1). -/
def sparseVar (x : List ℚ) : ℚ := (x.map (fun a => a ^ 2)).sum / x.length - colMean x ^ 2

/-- Column standard deviation with the variance floored at `1e-8`:
`np.sqrt(v_var.clip(1e-8))`. -/
noncomputable def colSd (v : ℚ) : ℝ := Real.sqrt (((max v varFloor : ℚ)) : ℝ)

/-- Correlation of one column pair:
`(mat_X.multiply(mat_Y).mean(axis=0) - v_X_mean * v_Y_mean) / v_X_sd / v_Y_sd`. -/
noncomputable def corrPair (x y : List ℚ) : ℝ :=
  (((((x.zip y).map (fun p => p.1 * p.2)).sum / (x.length : ℚ)) - colMean x * colMean y : ℚ) : ℝ)
    / colSd (sparseVar x) / colSd (sparseVar y)

/-- Flag for `no_var`: this column pair has variance at or below `1e-6` on
either side. -/
def noVarPair (x y : List ℚ) : Bool :=
  decide (sparseVar x ≤ noVarThreshold) || decide (sparseVar y ≤ noVarThreshold)

/-- The `no_var` boolean vector over all column pairs. -/
def noVarList (X Y : List (List ℚ)) : List Bool :=
  (X.zip Y).map (fun p => noVarPair p.1 p.2)

/-- Return shape of `pearson_corr_sparse`: either a flat correlation vector,
or the pair `(mat_corr, ~no_var)` of the correlation vector and the boolean
keep-mask. -/
inductive PearsonResult where
  | vec (corr : List ℝ)
  | withMask (corr : List ℝ) (keep : List Bool)

/-- Embedding of `pearson_corr_sparse` (`src/ctar/method.py` lines 17–80;
`src/ctar/method-Isuru.py` lines 52–115; the two copies are identical).
Matrices are lists of columns.  The sparse representation itself is a
performance device and is not modelled; column values are.  Mirrors the
control flow: optional variance filtering of both inputs, then the
single-column early return of the flat vector, then the `var_filter`
return of `(mat_corr, ~no_var)`. -/
noncomputable def pearson_corr_sparse (X Y : List (List ℚ)) (var_filter : Bool) :
    PearsonResult :=
  let no_var := noVarList X Y
  let pairs := if var_filter && no_var.any id then
      (X.zip Y).filter (fun p => !(noVarPair p.1 p.2))
    else X.zip Y
  let corr := pairs.map (fun p => corrPair p.1 p.2)
  if pairs.length = 1 then PearsonResult.vec corr
  else if var_filter then PearsonResult.withMask corr (no_var.map (fun v => !v))
  else PearsonResult.vec corr

/-! ### Control peak sampler (`rand_peaks` / `create_ctrl_peaks`) -/

/-- A dynamically-typed Python value, as needed to model the pandas
comparison inside `rand_peaks`. -/
inductive PyVal where
  | int (n : ℤ)
  | str (s : String)
  | list (l : List ℤ)
deriving DecidableEq

/-- Python `==` between two dynamically-typed values: structural equality
within one type, `False` across different types (`[1,2] == "a"` is `False`,
hence `!=` is `True`). -/
def pyEqB : PyVal → PyVal → Bool
  | PyVal.int a, PyVal.int b => a == b
  | PyVal.str a, PyVal.str b => a == b
  | PyVal.list a, PyVal.list b => a == b
  | _, _ => false

/-- Embedding of `rand_peaks` from `src/ctar/method.py` (lines 445–474) up to
the random draw: the pool handed to `random.sample`.

In the source, `df` is `bins.groupby(['combined_mfa_gc']).agg(list)`, so
`row_bin = df.loc[row.combined_mfa_gc]` is a one-cell Series whose single
entry `'ind'` holds the WHOLE list of bin member indices.  The line
`row_bin_copy = row_bin[row_bin != row.name]` therefore compares that list
cell (not its elements) against the row label `row.name` with Python `!=`;
the cell is kept whenever the label is not literally equal to the list, and
`row_bin_copy['ind']` then hands the full member list (focal peak included)
to `random.sample`.  If the cell were dropped, `row_bin_copy['ind']` would
raise a KeyError, modelled as `none`. -/
def rand_peaks_pool (binMembers : List ℤ) (rowName : PyVal) : Option (List ℤ) :=
  if pyEqB (PyVal.list binMembers) rowName then none
  else some binMembers

/-- Embedding of the pool built inside `create_ctrl_peaks` from
`src/ctar/method-Isuru.py` (line 417): `row_bin[row_bin != peak.ind]` where
`row_bin` is a numpy array of member indices — a genuine elementwise
exclusion of the focal index. -/
def create_ctrl_peaks_pool (binMembers : List ℤ) (focal : ℤ) : List ℤ :=
  binMembers.filter (fun x => x ≠ focal)

/-- The possible results of `random.sample(pool, k)` and of
`np.random.choice(pool, size=(k,), replace=False)`: `s` is drawn from `pool`
without replacement (distinct positions, so `s` is a permutation of a
length-`k` sub-multiset of `pool`), in any order. -/
def SampleOutcome (pool : List ℤ) (k : ℕ) (s : List ℤ) : Prop :=
  s.length = k ∧ s.Subperm pool

/-- Both `random.sample(pool, k)` and `np.random.choice(pool, size=(k,),
replace=False)` raise `ValueError` exactly when `k` exceeds the pool size;
neither ever falls back to replacement or to a reduced-count draw. -/
def sampleRaises (pool : List ℤ) (k : ℕ) : Bool := decide (pool.length < k)

/-- A possible overall outcome of `method.py`'s `create_ctrl_peaks`
(lines 477–520): `rand_peaks` is applied independently to every link row, so
any combination of per-row draws from the per-row pools is possible. -/
def MethodPyOutcome (pools : List (List ℤ)) (b : ℕ) (rows : List (List ℤ)) : Prop :=
  rows.length = pools.length ∧ ∀ p ∈ rows.zip pools, SampleOutcome p.2 b p.1

/-- First occurrences of each distinct value, in order of appearance
(the uniques list of `pd.factorize`, also the rows kept by
`~adata.var.duplicated(subset='peak')`). -/
def uniquesFirst {α : Type} [DecidableEq α] (l : List α) : List α :=
  l.foldl (fun acc x => if x ∈ acc then acc else acc ++ [x]) []

/-- The codes of `pd.factorize`: each element mapped to the position of its
value in the uniques list. -/
def factorizeCodes {α : Type} [DecidableEq α] (l : List α) : List ℕ :=
  l.map (fun x => (uniquesFirst l).indexOf x)

/-- Embedding of the broadcast step of `create_ctrl_peaks` from
`src/ctar/method-Isuru.py` (lines 373–429): control draws are computed once
per distinct peak (`draws`, one row per entry of the uniques list) and then
copied to every link via `ind, _ = pd.factorize(adata.var[peak_col]);
ctrl_peaks = ctrl_peaks[ind, :]`. -/
def create_ctrl_peaks_rows {α : Type} [DecidableEq α] (peaks : List α)
    (draws : List (List ℤ)) : List (List ℤ) :=
  (factorizeCodes peaks).map (fun i => draws.getD i [])

/-! ### Poisson regression (`fit_poisson` / `get_poiss_coeff`, `method-Isuru.py`) -/

/-- Outcome of the statsmodels Poisson GLM fit for one feature: either the
fitted accessibility coefficient `result.params[1]`, or the fit raised
(non-convergence, degenerate input).  The numeric optimisation itself is
external (statsmodels) and is abstracted into this outcome. -/
inductive PoissFit where
  | ok (coeff : ℚ)
  | fail
deriving DecidableEq

/-- Embedding of `fit_poisson` from `src/ctar/method-Isuru.py` (lines
919–934): on success return the coefficient; on a caught exception return
Python `None` (modelled `none`) if `return_none` else `0`. -/
def fit_poisson (fit : PoissFit) (return_none : Bool) : Option ℚ :=
  match fit with
  | PoissFit.ok c => some c
  | PoissFit.fail => if return_none then none else some 0

/-- Python `coeff_.any()` as used in `get_poiss_coeff`: on a numpy float
scalar it is the truthiness of the value; on Python `None` the attribute
lookup raises `AttributeError`. -/
def npAnyOnCoeff : Option ℚ → Except String Bool
  | none => Except.error ("AttributeError")
  | some c => Except.ok (decide (¬ c = 0))

/-- The per-feature loop of `get_poiss_coeff`, carrying the running feature
index: `coeff_ = fit_poisson(x[:,i], y[:,i])` (with the default
`return_none=True`), then `if not coeff_.any(): failed.append(i) else:
coeffs.append(coeff_)`. -/
def poissLoop : List PoissFit → ℕ → Except String (List ℚ × List ℕ)
  | [], _ => Except.ok ([], [])
  | f :: rest, i =>
    match npAnyOnCoeff (fit_poisson f true) with
    | Except.error e => Except.error e
    | Except.ok b =>
      match poissLoop rest (i + 1) with
      | Except.error e => Except.error e
      | Except.ok (cs, fs) =>
        if b then Except.ok (((fit_poisson f true).getD 0) :: cs, fs)
        else Except.ok (cs, i :: fs)

/-- Embedding of `get_poiss_coeff` from `src/ctar/method-Isuru.py` (lines
937–967), abstracted over the per-feature fit outcomes: returns the list of
retained coefficients and the recorded failed indices, or the uncaught
exception that escapes the loop. -/
def get_poiss_coeff (fits : List PoissFit) : Except String (List ℚ × List ℕ) :=
  poissLoop fits 0

/-! ### Helper lemmas -/

/-- Splitting a count: entries at-or-above `v` plus entries strictly below `v`
exhaust the list. -/
theorem countP_le_add (l : List ℝ) (v : ℝ) :
    l.countP (fun x => decide (v ≤ x)) + l.countP (fun x => decide (x < v)) = l.length := by
  induction l with
  | nil => simp
  | cons a t ih =>
    by_cases h : a < v
    · rw [List.countP_cons_of_neg _ _ (by simp [not_le.mpr h]),
        List.countP_cons_of_pos _ _ (by simp [h]), List.length_cons, ← ih]
      omega
    · rw [List.countP_cons_of_pos _ _ (by simp [not_lt.mp h]),
        List.countP_cons_of_neg _ _ (by simp [h]), List.length_cons, ← ih]
      omega

/-- The indicator computed by `mc_pval` — pool size minus the left insertion
point of `v` into the sorted pool — equals the number of pool entries at or
above `v`. -/
theorem searchsorted_indicator (l : List ℝ) (v : ℝ) :
    l.length - np_searchsorted (np_sort l) v = l.countP (fun x => decide (v ≤ x)) := by
  unfold np_searchsorted np_sort
  rw [(List.perm_insertionSort (· ≤ ·) l).countP_eq]
  have h := countP_le_add l v
  omega

/-- Members of the zip of a mapped list with the original list are exactly
the pairs `(f v, v)`. -/
theorem mem_zip_map {α β : Type} (f : α → β) (l : List α) (pr : β × α)
    (h : pr ∈ (l.map f).zip l) : ∃ v ∈ l, pr = (f v, v) := by
  induction l with
  | nil => simp at h
  | cons a t ih =>
    simp only [List.map_cons, List.zip_cons_cons, List.mem_cons] at h
    rcases h with h | h
    · exact ⟨a, List.mem_cons_self a t, h⟩
    · obtain ⟨v, hv, rfl⟩ := ih h
      exact ⟨v, List.mem_cons_of_mem _ hv, rfl⟩

/-- Counts of a boolean predicate and its negation add up to the length. -/
theorem countP_bnot_add {α : Type} (l : List α) (f : α → Bool) :
    l.countP (fun a => !(f a)) + l.countP f = l.length := by
  induction l with
  | nil => simp
  | cons a t ih =>
    by_cases h : f a
    · rw [List.countP_cons_of_neg _ _ (by simp [h]),
        List.countP_cons_of_pos _ _ (by simp [h]), List.length_cons, ← ih]
      omega
    · rw [List.countP_cons_of_pos _ _ (by simp [h]),
        List.countP_cons_of_neg _ _ (by simp [h]), List.length_cons, ← ih]
      omega

theorem rowMean_eval : rowMean [(0:ℚ), 2] = 1 := by norm_num [rowMean]

theorem npVar_eval : npVar [(0:ℚ), 2] = 1 := by norm_num [npVar, rowMean_eval]

theorem rowStd_eval : rowStd [(0:ℚ), 2] = 1 := by
  rw [rowStd, npVar_eval]
  simp [Real.sqrt_one]

theorem centerRow_eval : centerRow [(0:ℚ), 2] = [-1, 1] := by
  unfold centerRow
  rw [rowMean_eval, rowStd_eval]
  norm_num

/-- Concrete evaluation of `method.center_ctrls` on the one-row null
`[[0, 2]]` (mean 1, std 1). -/
theorem method_center_eval (m : ℚ) :
    method.center_ctrls [[(0:ℚ), 2]] [m] = ([1, 1], [|((m : ℚ) : ℝ) - 1|]) := by
  unfold method.center_ctrls
  simp only [List.map_cons, List.map_nil, centerRow_eval, List.zip_cons_cons, List.zip_nil_right,
    List.flatten, List.append_nil, rowMean_eval, rowStd_eval]
  norm_num

/-- Concrete evaluation of `method.mc_pval` on the one-row null `[[0, 2]]`:
the p-value is driven by the count of pooled entries at or above the centered
focal statistic. -/
theorem method_mc_eval (m : ℚ) :
    method.mc_pval [[(0:ℚ), 2]] [m] =
      [(1 + (([(1:ℝ), 1].countP (fun x => decide (|((m : ℚ) : ℝ) - 1| ≤ x)) : ℕ) : ℚ)) / 3] := by
  unfold method.mc_pval
  rw [method_center_eval]
  simp only [List.map_cons, List.map_nil]
  rw [searchsorted_indicator [(1:ℝ), 1] (|((m : ℚ) : ℝ) - 1|)]
  norm_num

/-- Concrete evaluation of `methodIsuru.center_ctrls` on `[[0, 2]]`. -/
theorem isuru_center_eval (m : ℚ) :
    methodIsuru.center_ctrls [[(0:ℚ), 2]] [m] = ([-1, 1], [((m : ℚ) : ℝ) - 1]) := by
  unfold methodIsuru.center_ctrls
  simp only [List.map_cons, List.map_nil, centerRow_eval, List.zip_cons_cons, List.zip_nil_right,
    List.flatten, List.append_nil, rowMean_eval, rowStd_eval]
  norm_num

/-- Concrete evaluation of `methodIsuru.mc_pval` at null `[[0, 2]]` and
observed `1/2`: the abs-then-center order yields `2/3`. -/
theorem isuru_mc_eval_half : methodIsuru.mc_pval [[(0:ℚ), 2]] [1/2] = [2/3] := by
  unfold methodIsuru.mc_pval
  have habs : ([[(0:ℚ), 2]].map (fun r => r.map (fun x => |x|))) = [[(0:ℚ), 2]] := by norm_num
  have habs2 : ([(1/2 : ℚ)].map (fun x => |x|)) = [(1/2 : ℚ)] := by norm_num
  rw [habs, habs2, isuru_center_eval]
  simp only [List.map_cons, List.map_nil]
  rw [searchsorted_indicator [(-1:ℝ), 1] (((1/2 : ℚ) : ℝ) - 1)]
  rw [List.countP_cons_of_neg _ _ (by norm_num), List.countP_cons_of_pos _ _ (by norm_num)]
  norm_num

/-- The flattened centered pool of an (N,b)-shaped null has N·b entries. -/
theorem flatten_rows_length (L : List (List ℚ)) (b : ℕ) (hb : ∀ r ∈ L, r.length = b) :
    ((L.map centerRow).flatten).length = L.length * b := by
  induction L with
  | nil => simp
  | cons r t ih =>
    simp only [List.map_cons, List.flatten_cons, List.length_append, List.length_cons]
    rw [ih (fun s hs => hb s (List.mem_cons_of_mem _ hs))]
    have hr : (centerRow r).length = b := by
      simp only [centerRow, List.length_map]
      exact hb r (List.mem_cons_self r t)
    rw [hr]; ring

/-- Pool size of `method.center_ctrls` on an (N,b)-shaped null. -/
theorem pool_length (ctrl : List (List ℚ)) (main : List ℚ) (b : ℕ)
    (hb : ∀ r ∈ ctrl, r.length = b) :
    (method.center_ctrls ctrl main).1.length = ctrl.length * b := by
  unfold method.center_ctrls
  simp only [List.length_map]
  exact flatten_rows_length ctrl b hb

/-- Multiplying a column elementwise with itself squares it. -/
theorem zip_self_sq (x : List ℚ) :
    (x.zip x).map (fun p => p.1 * p.2) = x.map (fun a => a ^ 2) := by
  induction x with
  | nil => rfl
  | cons a t ih => simp [ih, pow_two]

/-- Core of the self-correlation property: one column paired with itself has
correlation exactly 1 whenever its variance clears the `1e-6` threshold
(so the `1e-8` floor is inactive and the variance cancels). -/
theorem corrPair_self (x : List ℚ) (h : noVarThreshold < sparseVar x) : corrPair x x = 1 := by
  have hv0 : (0:ℚ) < sparseVar x := lt_trans (by norm_num [noVarThreshold]) h
  have hmax : max (sparseVar x) varFloor = sparseVar x := by
    apply max_eq_left
    have hlt : varFloor < noVarThreshold := by norm_num [varFloor, noVarThreshold]
    linarith
  unfold corrPair colSd
  rw [zip_self_sq, hmax]
  have hnum : ((x.map (fun a => a ^ 2)).sum / ((x.length : ℕ) : ℚ) - colMean x * colMean x : ℚ)
      = sparseVar x := by
    unfold sparseVar
    ring
  rw [hnum, div_div, Real.mul_self_sqrt (by positivity),
    div_self (by exact_mod_cast hv0.ne.symm)]

/-! ### Claim theorems -/

/-- C1: for every (N,b)-shaped null matrix with nonzero per-row standard
deviation and observed vector of length N, `method.mc_pval` returns per
feature exactly `(1 + k) / (1 + N*b)`, where `k` counts the entries of the
pooled centered absolute null at or above that feature's centered absolute
observed statistic (the code obtains `k` by binary search into the sorted
pool); and no returned p-value is zero. -/
theorem mc_pval_pooled_laplace (ctrl : List (List ℚ)) (main : List ℚ) (b : ℕ)
    (hmain : main.length = ctrl.length)
    (hb : ∀ r ∈ ctrl, r.length = b)
    (hstd : ∀ r ∈ ctrl, npVar r ≠ 0) :
    method.mc_pval ctrl main =
      ((method.center_ctrls ctrl main).2).map (fun v =>
        (1 + (((method.center_ctrls ctrl main).1.countP (fun x => decide (v ≤ x)) : ℕ) : ℚ)) /
          (1 + ((ctrl.length * b : ℕ) : ℚ))) ∧
    ∀ p ∈ method.mc_pval ctrl main, 0 < p := by
  constructor
  · cases ctrl with
    | nil => simp [method.mc_pval, method.center_ctrls]
    | cons r t =>
      unfold method.mc_pval
      apply List.map_congr_left
      intro v hv
      rw [searchsorted_indicator]
      rw [show ((r :: t).headD []) = r from rfl, hb r (List.mem_cons_self r t)]
  · intro p hp
    unfold method.mc_pval at hp
    obtain ⟨v, hv, rfl⟩ := List.mem_map.mp hp
    apply div_pos
    · positivity
    · positivity

/-- Witness for C1 at the concrete input `ctrl = [[0, 2]]`, `main = [1]`,
`b = 2`: the hypotheses hold and the theorem applies. -/
theorem mc_pval_pooled_laplace_w :
    (([(1:ℚ)].length = [[(0:ℚ), 2]].length) ∧ (∀ r ∈ [[(0:ℚ), 2]], r.length = 2) ∧
      (∀ r ∈ [[(0:ℚ), 2]], npVar r ≠ 0)) ∧
    (method.mc_pval [[(0:ℚ), 2]] [1] =
      ((method.center_ctrls [[(0:ℚ), 2]] [1]).2).map (fun v =>
        (1 + (((method.center_ctrls [[(0:ℚ), 2]] [1]).1.countP
            (fun x => decide (v ≤ x)) : ℕ) : ℚ)) /
          (1 + ((([[(0:ℚ), 2]].length * 2 : ℕ)) : ℚ))) ∧
      ∀ p ∈ method.mc_pval [[(0:ℚ), 2]] [1], 0 < p) :=
  ⟨⟨rfl, by decide, by
      intro r hr
      rw [List.mem_singleton] at hr
      subst hr
      rw [npVar_eval]
      exact one_ne_zero⟩,
    mc_pval_pooled_laplace [[(0:ℚ), 2]] [1] 2 rfl (by decide) (by
      intro r hr
      rw [List.mem_singleton] at hr
      subst hr
      rw [npVar_eval]
      exact one_ne_zero)⟩

/-- C3 counterexample: at null `[[0, 2]]` and observed `[2]` the centered
absolute focal statistic is `1`, which IS the maximum of the pooled centered
absolute null `[1, 1]`, yet the returned p-value is `1`, not
`1/(1+N*B) = 1/3`.  (With left-sided binary search, a focal statistic equal
to the pool maximum still counts the maximal entries, so the claimed value
`1/(1+N*B)` is attained only by statistics strictly above the whole pool.) -/
theorem mc_pval_pool_max_cex :
    (method.center_ctrls [[(0:ℚ), 2]] [2]).1 = [1, 1] ∧
    (method.center_ctrls [[(0:ℚ), 2]] [2]).2 = [1] ∧
    method.mc_pval [[(0:ℚ), 2]] [2] = [1] ∧
    (1 : ℚ) ≠ 1 / (1 + ((1 * 2 : ℕ) : ℚ)) := by
  refine ⟨?_, ?_, ?_, by norm_num⟩
  · rw [method_center_eval]
  · rw [method_center_eval]
    norm_num
  · rw [method_mc_eval]
    have h : |((2:ℚ) : ℝ) - 1| = 1 := by norm_num
    rw [h, List.countP_cons_of_pos _ _ (by norm_num), List.countP_cons_of_pos _ _ (by norm_num)]
    norm_num

/-- C3 (amended): every `method.mc_pval` entry lies in (0, 1]; a feature
whose centered absolute observed statistic strictly exceeds every element of
the pooled centered absolute null gets p-value `1/(1+N*b)`; a feature whose
centered absolute observed statistic is at or below every element of the
pool (in particular, at the pool minimum) gets p-value `1`. -/
theorem mc_pval_range_bounds (ctrl : List (List ℚ)) (main : List ℚ) (b : ℕ)
    (hmain : main.length = ctrl.length)
    (hb : ∀ r ∈ ctrl, r.length = b) :
    (∀ p ∈ method.mc_pval ctrl main, 0 < p ∧ p ≤ 1) ∧
    ∀ pr ∈ (method.mc_pval ctrl main).zip (method.center_ctrls ctrl main).2,
      ((∀ x ∈ (method.center_ctrls ctrl main).1, x < pr.2) →
          pr.1 = 1 / (1 + ((ctrl.length * b : ℕ) : ℚ))) ∧
      ((∀ x ∈ (method.center_ctrls ctrl main).1, pr.2 ≤ x) → pr.1 = 1) := by
  cases ctrl with
  | nil =>
    constructor
    · intro p hp
      simp [method.mc_pval, method.center_ctrls] at hp
    · intro pr hpr
      simp [method.mc_pval, method.center_ctrls] at hpr
  | cons r t =>
    have hhead : ((r :: t).headD []).length = b := hb r (List.mem_cons_self r t)
    have hpool : (method.center_ctrls (r :: t) main).1.length = (r :: t).length * b :=
      pool_length _ main b hb
    constructor
    · intro p hp
      unfold method.mc_pval at hp
      obtain ⟨v, hv, rfl⟩ := List.mem_map.mp hp
      constructor
      · apply div_pos <;> positivity
      · rw [div_le_one (by positivity)]
        have hle : (method.center_ctrls (r :: t) main).1.length -
            np_searchsorted (np_sort (method.center_ctrls (r :: t) main).1) v ≤
            (r :: t).length * ((r :: t).headD []).length := by
          rw [hhead, ← hpool]; omega
        have hc := Nat.cast_le (α := ℚ).mpr hle
        push_cast at hc ⊢
        linarith
    · intro pr hpr
      unfold method.mc_pval at hpr
      obtain ⟨v, hv, rfl⟩ := mem_zip_map _ _ _ hpr
      constructor
      · intro hmax
        simp only
        rw [searchsorted_indicator]
        have hzero : (method.center_ctrls (r :: t) main).1.countP
            (fun x => decide (v ≤ x)) = 0 := by
          rw [List.countP_eq_zero]
          intro a ha
          simp only [decide_eq_true_eq]
          exact not_le.mpr (hmax a ha)
        rw [hzero, hhead]
        norm_num
      · intro hmin
        simp only
        rw [searchsorted_indicator]
        have hall : (method.center_ctrls (r :: t) main).1.countP
            (fun x => decide (v ≤ x)) = (method.center_ctrls (r :: t) main).1.length := by
          rw [List.countP_eq_length]
          intro a ha
          simp only [decide_eq_true_eq]
          exact hmin a ha
        rw [hall, hpool, hhead]
        rw [div_self (by positivity)]

/-- Witness for C3 (amended) at `ctrl = [[0, 2]]`, `main = [4]`, `b = 2`. -/
theorem mc_pval_range_bounds_w :
    (([(4:ℚ)].length = [[(0:ℚ), 2]].length) ∧ (∀ r ∈ [[(0:ℚ), 2]], r.length = 2)) ∧
    (∀ p ∈ method.mc_pval [[(0:ℚ), 2]] [4], 0 < p ∧ p ≤ 1) :=
  ⟨⟨rfl, by decide⟩, (mc_pval_range_bounds [[(0:ℚ), 2]] [4] 2 rfl (by decide)).1⟩

/-- C8: the two `mc_pval` embeddings are extensionally different.  On the
null `[[0, 2]]` and observed `[1/2]`, `method.py` (absolute value AFTER
centering) returns `[1]` while `method-Isuru.py` (absolute value BEFORE
centering) returns `[2/3]`. -/
theorem mc_pval_variants_diverge :
    method.mc_pval [[(0:ℚ), 2]] [1/2] = [1] ∧
    methodIsuru.mc_pval [[(0:ℚ), 2]] [1/2] = [2/3] ∧
    method.mc_pval [[(0:ℚ), 2]] [1/2] ≠ methodIsuru.mc_pval [[(0:ℚ), 2]] [1/2] := by
  have h1 : method.mc_pval [[(0:ℚ), 2]] [1/2] = [1] := by
    rw [method_mc_eval]
    have h : |(((1:ℚ)/2 : ℚ) : ℝ) - 1| = 1/2 := by
      rw [abs_of_nonpos (by norm_num)]
      norm_num
    rw [h, List.countP_cons_of_pos _ _ (by norm_num), List.countP_cons_of_pos _ _ (by norm_num)]
    norm_num
  refine ⟨h1, isuru_mc_eval_half, ?_⟩
  rw [h1, isuru_mc_eval_half]
  norm_num

/-- C4: a column paired with itself, when its variance exceeds the `1e-6`
no-variance threshold, yields correlation exactly 1 from
`pearson_corr_sparse` (as a single-column call it is returned as the flat
vector `[1]`); sparsity of the column is irrelevant in exact arithmetic. -/
theorem pearson_self_corr_one (x : List ℚ) (h : noVarThreshold < sparseVar x) :
    pearson_corr_sparse [x] [x] false = PearsonResult.vec [1] := by
  unfold pearson_corr_sparse
  simp [corrPair_self x h]

/-- Witness for C4 at the column `x = [0, 2]` (variance 1). -/
theorem pearson_self_corr_one_w :
    (noVarThreshold < sparseVar [(0:ℚ), 2]) ∧
    pearson_corr_sparse [[(0:ℚ), 2]] [[(0:ℚ), 2]] false = PearsonResult.vec [1] :=
  ⟨by norm_num [sparseVar, colMean, noVarThreshold],
    pearson_self_corr_one [(0:ℚ), 2] (by norm_num [sparseVar, colMean, noVarThreshold])⟩

theorem noVarPair_00 : noVarPair [(0:ℚ), 0] [(0:ℚ), 0] = true := by
  simp only [noVarPair, Bool.or_eq_true, decide_eq_true_eq]
  left
  norm_num [sparseVar, colMean, noVarThreshold]

theorem noVarPair_02 : noVarPair [(0:ℚ), 2] [(0:ℚ), 2] = false := by
  simp only [noVarPair, Bool.or_eq_false_iff, decide_eq_false_iff_not]
  norm_num [sparseVar, colMean, noVarThreshold]

theorem noVarPair_04 : noVarPair [(0:ℚ), 4] [(0:ℚ), 4] = false := by
  simp only [noVarPair, Bool.or_eq_false_iff, decide_eq_false_iff_not]
  norm_num [sparseVar, colMean, noVarThreshold]

/-- C7 counterexample: with `var_filter=True` on the two-column input whose
first column `[0, 0]` is constant, the filter leaves exactly one column, so
the single-column early return fires and `pearson_corr_sparse` returns ONLY
the flat vector `[1]` — no keep-mask is returned, refuting the claim that a
mask always accompanies the vector in this situation. -/
theorem pearson_mask_missing :
    (noVarList [[(0:ℚ), 0], [0, 2]] [[(0:ℚ), 0], [0, 2]]).any id = true ∧
    pearson_corr_sparse [[(0:ℚ), 0], [0, 2]] [[(0:ℚ), 0], [0, 2]] true =
      PearsonResult.vec [1] := by
  have hc : corrPair [(0:ℚ), 2] [(0:ℚ), 2] = 1 :=
    corrPair_self _ (by norm_num [sparseVar, colMean, noVarThreshold])
  constructor
  · simp [noVarList, noVarPair_00]
  · unfold pearson_corr_sparse
    simp [noVarList, noVarPair_00, noVarPair_02, hc]

/-- C7 (amended): with `var_filter=True`, at least one no-variance column
pair, and the number of surviving columns different from one, the function
returns the correlation vector together with the keep-mask; the mask is
false exactly on the column pairs with variance at or below `1e-6` on either
side, and the vector length is the input column count minus the number of
masked columns.  (When exactly one column survives, only the flat vector is
returned — see the counterexample.) -/
theorem pearson_var_filter_mask (X Y : List (List ℚ))
    (hlen : X.length = Y.length)
    (hany : (noVarList X Y).any id = true)
    (hone : ((X.zip Y).filter (fun p => !(noVarPair p.1 p.2))).length ≠ 1) :
    pearson_corr_sparse X Y true =
      PearsonResult.withMask
        (((X.zip Y).filter (fun p => !(noVarPair p.1 p.2))).map (fun p => corrPair p.1 p.2))
        ((noVarList X Y).map (fun v => !v)) ∧
    (((X.zip Y).filter (fun p => !(noVarPair p.1 p.2))).map (fun p => corrPair p.1 p.2)).length
      = X.length - (noVarList X Y).count true ∧
    ∀ i (h : i < (noVarList X Y).length),
      ((noVarList X Y).get ⟨i, h⟩ = true ↔
        (sparseVar (X.getD i []) ≤ noVarThreshold ∨ sparseVar (Y.getD i []) ≤ noVarThreshold)) := by
  refine ⟨?_, ?_, ?_⟩
  · unfold pearson_corr_sparse
    simp only [hany, Bool.and_true, if_true]
    rw [if_neg hone]
  · rw [List.length_map, ← List.countP_eq_length_filter]
    have h1 := countP_bnot_add (X.zip Y) (fun p => noVarPair p.1 p.2)
    have h2 : (noVarList X Y).count true = (X.zip Y).countP (fun p => noVarPair p.1 p.2) := by
      simp only [List.count, noVarList, List.countP_map]
      exact List.countP_congr (fun x _ => by simp [Function.comp])
    have h3 : (X.zip Y).length = X.length := by
      rw [List.length_zip, hlen, min_self]
    omega
  · intro i h
    have hx : i < X.length := by
      have h2 := h
      simp only [noVarList, List.length_map, List.length_zip] at h2
      omega
    have hy : i < Y.length := by
      have h2 := h
      simp only [noVarList, List.length_map, List.length_zip] at h2
      omega
    have hget : (noVarList X Y).get ⟨i, h⟩ = noVarPair (X.getD i []) (Y.getD i []) := by
      simp only [noVarList, List.get_eq_getElem, List.getElem_map, List.getElem_zip,
        List.getD_eq_getElem _ _ hx, List.getD_eq_getElem _ _ hy]
    rw [hget]
    simp [noVarPair]

/-- Witness for C7 (amended) at the three-column input whose first column is
constant: two columns survive, so the masked result is returned. -/
theorem pearson_var_filter_mask_w :
    ((noVarList [[(0:ℚ), 0], [0, 2], [0, 4]] [[(0:ℚ), 0], [0, 2], [0, 4]]).any id = true) ∧
    (pearson_corr_sparse [[(0:ℚ), 0], [0, 2], [0, 4]] [[(0:ℚ), 0], [0, 2], [0, 4]] true =
      PearsonResult.withMask
        ((([[(0:ℚ), 0], [0, 2], [0, 4]].zip [[(0:ℚ), 0], [0, 2], [0, 4]]).filter
            (fun p => !(noVarPair p.1 p.2))).map (fun p => corrPair p.1 p.2))
        ((noVarList [[(0:ℚ), 0], [0, 2], [0, 4]] [[(0:ℚ), 0], [0, 2], [0, 4]]).map
          (fun v => !v)) ∧
    ((([[(0:ℚ), 0], [0, 2], [0, 4]].zip [[(0:ℚ), 0], [0, 2], [0, 4]]).filter
        (fun p => !(noVarPair p.1 p.2))).map (fun p => corrPair p.1 p.2)).length
      = [[(0:ℚ), 0], [0, 2], [0, 4]].length -
        (noVarList [[(0:ℚ), 0], [0, 2], [0, 4]] [[(0:ℚ), 0], [0, 2], [0, 4]]).count true ∧
    ∀ i (h : i < (noVarList [[(0:ℚ), 0], [0, 2], [0, 4]] [[(0:ℚ), 0], [0, 2], [0, 4]]).length),
      ((noVarList [[(0:ℚ), 0], [0, 2], [0, 4]] [[(0:ℚ), 0], [0, 2], [0, 4]]).get ⟨i, h⟩ = true ↔
        (sparseVar ([[(0:ℚ), 0], [0, 2], [0, 4]].getD i []) ≤ noVarThreshold ∨
          sparseVar ([[(0:ℚ), 0], [0, 2], [0, 4]].getD i []) ≤ noVarThreshold))) :=
  ⟨by simp [noVarList, noVarPair_00],
    pearson_var_filter_mask [[(0:ℚ), 0], [0, 2], [0, 4]] [[(0:ℚ), 0], [0, 2], [0, 4]] rfl
      (by simp [noVarList, noVarPair_00])
      (by simp [noVarPair_00, noVarPair_02, noVarPair_04])⟩

/-- C2 (code bug demonstration): `rand_peaks` from `method.py` fails to
exclude the focal peak.  With confounder-bin member list `[5]` for focal
peak index `5` and `b = 1`, the pandas filter keeps the full list (the
one-cell Series holds the whole list, which is never `!=`-equal to the row
label), `random.sample` does not raise, and the only possible draw is
`[5]` — containing the focal index, contrary to the documented
"Exclude main peak" behavior.  `method-Isuru.py`'s elementwise exclusion
(`create_ctrl_peaks_pool`) correctly leaves an empty pool on the same
input. -/
theorem rand_peaks_keeps_focal :
    rand_peaks_pool [5] (PyVal.str ("peak5")) = some [5] ∧
    sampleRaises [5] 1 = false ∧
    SampleOutcome [5] 1 [5] ∧ (5:ℤ) ∈ [(5:ℤ)] ∧
    create_ctrl_peaks_pool [5] 5 = [] :=
  ⟨rfl, rfl, ⟨rfl, List.Subperm.refl _⟩, by decide, rfl⟩

/-- C6 (code bug demonstration): a confounder bin `{1, 2}` has only one
member other than the focal peak `1`, yet with `b = 2` `method.py`'s
`rand_peaks` does not raise: its pool still contains the focal peak, so the
full-size draw `[1, 2]` (including the focal index) is possible where the
claim requires an error.  `method-Isuru.py`'s pool correctly excludes the
focal peak, leaving `[2]`, and `np.random.choice(..., replace=False)` then
raises for a size-2 draw. -/
theorem insufficient_pool_no_raise :
    create_ctrl_peaks_pool [1, 2] 1 = [2] ∧
    sampleRaises (create_ctrl_peaks_pool [1, 2] 1) 2 = true ∧
    rand_peaks_pool [1, 2] (PyVal.str ("p1")) = some [1, 2] ∧
    sampleRaises [1, 2] 2 = false ∧
    SampleOutcome [1, 2] 2 [1, 2] ∧ (1:ℤ) ∈ [(1:ℤ), 2] :=
  ⟨rfl, rfl, rfl, rfl, ⟨rfl, List.Subperm.refl _⟩, by decide⟩

/-- C9 counterexample: two links sharing one peak (same bin member list
`[7, 8]`) under `method.py`'s `create_ctrl_peaks`, which invokes
`rand_peaks` independently per link row: the outcome assigning `[7]` to the
first link and `[8]` to the second is a possible draw, so duplicate-peak
links are NOT guaranteed identical control rows by that implementation. -/
theorem ctrl_draws_rerandomized :
    rand_peaks_pool [7, 8] (PyVal.str ("pk.g1")) = some [7, 8] ∧
    rand_peaks_pool [7, 8] (PyVal.str ("pk.g2")) = some [7, 8] ∧
    MethodPyOutcome [[7, 8], [7, 8]] 1 [[7], [8]] ∧
    ([7] : List ℤ) ≠ [8] := by
  refine ⟨rfl, rfl, ⟨rfl, ?_⟩, by decide⟩
  intro p hp
  simp only [List.zip_cons_cons, List.zip_nil_right, List.mem_cons, List.not_mem_nil,
    or_false] at hp
  rcases hp with h | h
  · rw [h]
    exact ⟨rfl, by decide⟩
  · rw [h]
    exact ⟨rfl, by decide⟩

/-- C9 (amended): `method-Isuru.py`'s `create_ctrl_peaks` computes the draw
once per distinct peak and broadcasts it through `pd.factorize`, so any two
links with the same peak identifier receive identical control rows. -/
theorem ctrl_rows_broadcast (peaks : List ℕ) (draws : List (List ℤ)) (j k : ℕ)
    (hj : j < peaks.length) (hk : k < peaks.length)
    (hpeak : peaks.getD j 0 = peaks.getD k 0) :
    (create_ctrl_peaks_rows peaks draws).getD j [] =
      (create_ctrl_peaks_rows peaks draws).getD k [] := by
  have hj2 : j < (create_ctrl_peaks_rows peaks draws).length := by
    simpa [create_ctrl_peaks_rows, factorizeCodes] using hj
  have hk2 : k < (create_ctrl_peaks_rows peaks draws).length := by
    simpa [create_ctrl_peaks_rows, factorizeCodes] using hk
  rw [List.getD_eq_getElem _ _ hj2, List.getD_eq_getElem _ _ hk2]
  rw [List.getD_eq_getElem _ _ hj, List.getD_eq_getElem _ _ hk] at hpeak
  simp only [create_ctrl_peaks_rows, factorizeCodes, List.getElem_map]
  rw [hpeak]

/-- Concrete broadcast evaluation: links over peaks `[3, 4, 3]` (first and
third links share a peak) with per-unique-peak draws `[[10], [20]]` give
rows `[[10], [20], [10]]`. -/
theorem create_ctrl_peaks_rows_eval :
    create_ctrl_peaks_rows [3, 4, 3] [[10], [20]] = [[10], [20], [10]] := by decide

/-- Witness for C9 (amended): links 0 and 2 share peak `3` and receive the
same control row. -/
theorem ctrl_rows_broadcast_w :
    (([3, 4, 3] : List ℕ).getD 0 0 = ([3, 4, 3] : List ℕ).getD 2 0) ∧
    (create_ctrl_peaks_rows [3, 4, 3] [[10], [20]]).getD 0 [] =
      (create_ctrl_peaks_rows [3, 4, 3] [[10], [20]]).getD 2 [] :=
  ⟨by decide, ctrl_rows_broadcast [3, 4, 3] [[10], [20]] 0 2 (by decide) (by decide) (by decide)⟩

/-- C10 (code bug demonstration): `fit_poisson` catches the GLM exception
and returns Python `None` under the default `return_none=True`, but
`get_poiss_coeff` then calls `.any()` on that `None`, so a single fit
failure escapes the loop as an `AttributeError` instead of being recorded in
`failed` and dropped.  On an all-successful input the loop does produce the
aligned coefficient list with no failures. -/
theorem get_poiss_coeff_raises :
    get_poiss_coeff [PoissFit.ok 1, PoissFit.fail] = Except.error ("AttributeError") ∧
    fit_poisson PoissFit.fail true = none ∧
    get_poiss_coeff [PoissFit.ok 1, PoissFit.ok 2] = Except.ok ([1, 2], []) := by
  refine ⟨rfl, rfl, ?_⟩
  rfl
